import Mathlib

/-!
Verification of the league-matrix-app core pipeline: a shallow embedding of
the Go sources (pkg/errors, internal/repository, internal/domain) together
with theorems about the validator, the operation executor and the
orchestrator.

Conventions of the embedding:
* Go `error` values are the inductive `GoError`; `fmt.Errorf("%w: msg", e)`
  is `GoError.wrapf msg e`; `errors.Is` is `errorsIs`, which walks the wrap
  chain.
* A Go `context.Context` is reduced to what the code observes of it:
  `ctx.Err()`, i.e. the three possibilities in `Ctx`.
* A function returning `(T, error)` becomes `Except GoError T`; a function
  returning only `error` becomes `Option GoError` (`none` = success).
* A nil pointer argument (`*MatrixFileContent`, `*entity.Matrix`) is an
  `Option`.
* A possible runtime panic (index out of range) is modelled by an outer
  `Option`: operations return `Option (Except GoError String)`, where the
  outer `none` marks an out-of-range slice access.
* Machine integers (`int64` matrix entries, `big.Int` accumulators) are
  `Int`; the `int64` range restriction appears exactly where the Go code
  enforces it (the `fmt.Sscanf` overflow check).
-/

instance {ε α : Type} [DecidableEq ε] [DecidableEq α] : DecidableEq (Except ε α) := fun a b =>
  match a, b with
  | .ok x, .ok y =>
    if h : x = y then .isTrue (congrArg Except.ok h) else .isFalse (fun c => h (Except.ok.inj c))
  | .error x, .error y =>
    if h : x = y then .isTrue (congrArg Except.error h)
    else .isFalse (fun c => h (Except.error.inj c))
  | .ok _, .error _ => .isFalse (fun c => Except.noConfusion c)
  | .error _, .ok _ => .isFalse (fun c => Except.noConfusion c)

/-- Embedding of Go error values for this app: the four sentinel errors of
pkg/errors, the two context errors, `errors.New` leaves, and the
`fmt.Errorf("%w: ...")` wrapping constructor. -/
inductive GoError where
  | invalidInput : GoError
  | notFound : GoError
  | payloadTooLarge : GoError
  | unprocessableEntity : GoError
  | canceled : GoError
  | deadlineExceeded : GoError
  | errorNew : String → GoError
  | wrapf : String → GoError → GoError
deriving DecidableEq, Repr

/-- `errors.Is`: the target matches the error itself or anything in its
unwrap chain. -/
def errorsIs : GoError → GoError → Bool
  | .wrapf m cause, t => decide (GoError.wrapf m cause = t) || errorsIs cause t
  | e, t => decide (e = t)

/-- Embedding of `context.Context` as what `ctx.Err()` can return. -/
inductive Ctx where
  | background : Ctx
  | canceled : Ctx
  | deadlineExceeded : Ctx
deriving DecidableEq, Repr

/-- `ctx.Err()`. -/
def ctxErr : Ctx → Option GoError
  | .background => none
  | .canceled => some .canceled
  | .deadlineExceeded => some .deadlineExceeded

/-- pkg/errors `GetHTTPStatusCode`: maps an error (possibly nil) to the
HTTP status code, walking the wrap chain via `errorsIs`. -/
def getHTTPStatusCode : Option GoError → Nat
  | none => 200
  | some e =>
    if errorsIs e .invalidInput then 400
    else if errorsIs e .notFound then 404
    else if errorsIs e .payloadTooLarge then 413
    else if errorsIs e .unprocessableEntity then 422
    else 500

/-- repository.MatrixFileContent: raw CSV rows of string fields. -/
structure MatrixFileContent where
  Content : List (List String)
deriving DecidableEq, Repr

/-- entity.Matrix: rows of int64 values (embedded as `Int`).  Named
`MatrixEntity` because `Matrix` is taken by Mathlib. -/
structure MatrixEntity where
  Data : List (List Int)
deriving DecidableEq, Repr

/-- `strings.Contains` on character data: does `needle` occur as a
contiguous subsequence of the list? -/
def listContainsSeq (needle : List Char) : List Char → Bool
  | [] => needle.isPrefixOf []
  | c :: t => needle.isPrefixOf (c :: t) || listContainsSeq needle t

/-- domain `ValidateFilePath`: context check, then the four path policy
checks (`strings.Contains`, `strings.HasPrefix`, `strings.HasSuffix`
embedded as the corresponding list functions on the character data). -/
def validateFilePath (ctx : Ctx) (filePath : String) : Option GoError :=
  match ctxErr ctx with
  | some e => some e
  | none =>
    if filePath = "" then
      some (.wrapf "file parameter is required" .invalidInput)
    else if listContainsSeq [ '.', '.' ] filePath.data then
      some (.wrapf "path traversal not allowed" .invalidInput)
    else if ! List.isPrefixOf "testdata/".data filePath.data then
      some (.wrapf "only files in testdata/ are allowed" .invalidInput)
    else if ! List.isSuffixOf ".csv".data filePath.data then
      some (.wrapf "only .csv files are supported" .invalidInput)
    else none

/-! ### The `fmt.Sscanf(val, "%d", &num)` scanner

`Validate` parses each cell with `fmt.Sscanf(val, "%d", &num)`.  The Go
scanner for `%d`: skips leading white space (a newline is an error), reads
an optional sign, then a maximal non-empty run of decimal digits, checks
the int64 range — and leaves any trailing characters unconsumed without
reporting an error. -/

/-- The scanner's `SkipSpace` with `nlIsSpace = false`: skips blanks, a
newline is an error (`none`). -/
def goSkipSpace : List Char → Option (List Char)
  | [] => some []
  | c :: cs =>
    if c = '\n' then none
    else if c = ' ' ∨ c = '\t' ∨ c = '\x0b' ∨ c = '\x0c' ∨ c = '\r' then goSkipSpace cs
    else some (c :: cs)

/-- Value of a run of decimal digits. -/
def digitsVal (ds : List Char) : Nat :=
  ds.foldl (fun a c => a * 10 + (c.toNat - 48)) 0

/-- Consume an optional leading sign: returns (isNegative, rest). -/
def splitSign : List Char → Bool × List Char
  | [] => (false, [])
  | c :: r =>
    if c = '-' then (true, r)
    else if c = '+' then (false, r)
    else (false, c :: r)

/-- `fmt.Sscanf(s, "%d", &num)` into an `int64`: `some v` iff the scan
succeeds, in which case `num = v`.  Trailing characters after the digit
run are ignored (this is the scanner's documented behaviour). -/
def goSscanfInt (s : String) : Option Int :=
  match goSkipSpace s.data with
  | none => none
  | some [] => none
  | some cs =>
    let p := splitSign cs
    let ds := p.2.takeWhile (fun c => c.isDigit)
    if ds = [] then none
    else
      let v : Int := if p.1 then -(digitsVal ds : Int) else (digitsVal ds : Int)
      if -(2 ^ 63) ≤ v ∧ v < 2 ^ 63 then some v else none

/-- Modelled from the spec: the integer denoted by a *clean* base-10
signed integer field — an optional sign followed by digits and nothing
else.  Used to compare the code's scanner against the spec's notion of
"parses it as a base-10 signed integer" with "no silent truncation". -/
def cleanIntValue (s : String) : Option Int :=
  let p := splitSign s.data
  if p.2 ≠ [] ∧ p.2.all (fun c => c.isDigit) then
    some (if p.1 then -(digitsVal p.2 : Int) else (digitsVal p.2 : Int))
  else none

/-- The inner cell loop of `Validate`: parse one row of fields, reporting
the first bad cell with its row/column coordinates. -/
def parseRow : List String → Nat → Nat → Except GoError (List Int)
  | [], _, _ => .ok []
  | v :: rest, i, j =>
    match goSscanfInt v with
    | none =>
      .error (.wrapf ("invalid integer value at row " ++ toString i ++ ", column " ++ toString j)
        .unprocessableEntity)
    | some n =>
      match parseRow rest i (j + 1) with
      | .error e => .error e
      | .ok ns => .ok (n :: ns)

/-- The outer cell loop of `Validate`. -/
def parseRows : List (List String) → Nat → Except GoError (List (List Int))
  | [], _ => .ok []
  | row :: rest, i =>
    match parseRow row i 0 with
    | .error e => .error e
    | .ok ns =>
      match parseRows rest (i + 1) with
      | .error e => .error e
      | .ok t => .ok (ns :: t)

/-- The ragged-matrix loop of `Validate`: the first row whose length is
not `cols` yields the error. -/
def checkRowLengths : List (List String) → Nat → Nat → Option GoError
  | [], _, _ => none
  | row :: rest, cols, i =>
    if row.length ≠ cols then
      some (.wrapf ("inconsistent row length at row " ++ toString i ++ ": expected "
        ++ toString cols ++ " columns, got " ++ toString row.length) .unprocessableEntity)
    else checkRowLengths rest cols (i + 1)

/-- domain `Validate`: context check, nil/empty check, row and column
caps, ragged check, then cell-by-cell integer conversion. -/
def validate (ctx : Ctx) (rawData : Option MatrixFileContent) : Except GoError MatrixEntity :=
  match ctxErr ctx with
  | some e => .error e
  | none =>
    match rawData with
    | none => .error (.wrapf "empty matrix data" .unprocessableEntity)
    | some rd =>
      if rd.Content.length = 0 then
        .error (.wrapf "empty matrix data" .unprocessableEntity)
      else
        let rows := rd.Content.length
        let cols := (rd.Content.headD []).length
        if rows > 10 then
          .error (.wrapf ("matrix exceeds maximum row limit: got " ++ toString rows
            ++ " rows, maximum is 10") .unprocessableEntity)
        else if cols > 10 then
          .error (.wrapf ("matrix exceeds maximum column limit: got " ++ toString cols
            ++ " columns, maximum is 10") .unprocessableEntity)
        else
          match checkRowLengths rd.Content cols 0 with
          | some e => .error e
          | none =>
            match parseRows rd.Content 0 with
            | .error e => .error e
            | .ok data => .ok ⟨data⟩

/-- Option-valued `mapM` written out by structural recursion, used to
model loops whose body may panic (`none` = index out of range). -/
def optMapM {α β : Type} (f : α → Option β) : List α → Option (List β)
  | [] => some []
  | a :: l =>
    match f a with
    | none => none
    | some b =>
      match optMapM f l with
      | none => none
      | some bs => some (b :: bs)

/-- The string-builder pattern shared by `echo` and `invert`: cells of a
row joined by `","`, rows joined by `"\n"`, no trailing line break. -/
def renderGrid (g : List (List Int)) : String :=
  String.intercalate "\n" (g.map (fun row => String.intercalate "," (row.map (fun v => toString v))))

/-- domain `sum`: nil/empty guard, then a `big.Int` accumulation over all
cells (exact integer arithmetic), rendered in decimal. -/
def sumOp (matrix : Option MatrixEntity) : Option (Except GoError String) :=
  match matrix with
  | none => some (.error (.wrapf "empty matrix" .invalidInput))
  | some mt =>
    if mt.Data.length = 0 then some (.error (.wrapf "empty matrix" .invalidInput))
    else
      some (.ok (toString (mt.Data.foldl (fun acc row => row.foldl (fun a v => a + v) acc) (0 : Int))))

/-- domain `multiply`: nil/empty guard, then a `big.Int` product over all
cells, rendered in decimal. -/
def multiplyOp (matrix : Option MatrixEntity) : Option (Except GoError String) :=
  match matrix with
  | none => some (.error (.wrapf "empty matrix" .invalidInput))
  | some mt =>
    if mt.Data.length = 0 then some (.error (.wrapf "empty matrix" .invalidInput))
    else
      some (.ok (toString (mt.Data.foldl (fun acc row => row.foldl (fun a v => a * v) acc) (1 : Int))))

/-- domain `echo`: nil/empty guard, then the comma/line-break rendering of
the matrix itself.  The row loops run each row at its own length, so no
indexing can go out of range. -/
def echoOp (matrix : Option MatrixEntity) : Option (Except GoError String) :=
  match matrix with
  | none => some (.error (.wrapf "empty matrix" .invalidInput))
  | some mt =>
    if mt.Data.length = 0 then some (.error (.wrapf "empty matrix" .invalidInput))
    else some (.ok (renderGrid mt.Data))

/-- domain `invert`: nil/empty guard, then builds the `cols × rows`
transposed grid reading `Data[j][i]`, and renders it.  The read
`Data[j][i]` is the one place a ragged matrix can cause an out-of-range
panic, modelled by the outer `none`. -/
def invert (matrix : Option MatrixEntity) : Option (Except GoError String) :=
  match matrix with
  | none => some (.error (.wrapf "empty matrix" .invalidInput))
  | some mt =>
    if mt.Data.length = 0 then some (.error (.wrapf "empty matrix" .invalidInput))
    else
      let rows := mt.Data.length
      let cols := (mt.Data.headD []).length
      match optMapM (fun i => optMapM (fun j => (mt.Data.getD j []).get? i) (List.range rows))
          (List.range cols) with
      | none => none
      | some g => some (.ok (renderGrid g))

/-- domain `flatten`: nil/empty guard, then all cells in row-major order
joined by `","` (the `first` flag in the Go builder). -/
def flattenOp (matrix : Option MatrixEntity) : Option (Except GoError String) :=
  match matrix with
  | none => some (.error (.wrapf "empty matrix" .invalidInput))
  | some mt =>
    if mt.Data.length = 0 then some (.error (.wrapf "empty matrix" .invalidInput))
    else some (.ok (String.intercalate "," (mt.Data.flatten.map (fun v => toString v))))

/-- domain `IsValidOperation`: context check, then membership in the fixed
operation registry map. -/
def isValidOperation (ctx : Ctx) (operation : String) : Option GoError :=
  match ctxErr ctx with
  | some e => some e
  | none =>
    if operation = "sum" ∨ operation = "multiply" ∨ operation = "echo"
        ∨ operation = "invert" ∨ operation = "flatten" then none
    else some (.wrapf ("invalid operation: " ++ operation) .invalidInput)

/-- domain `RunOperation`: context check, then the dispatch switch with an
InvalidInput default branch. -/
def runOperation (ctx : Ctx) (matrix : Option MatrixEntity) (operation : String) :
    Option (Except GoError String) :=
  match ctxErr ctx with
  | some e => some (.error e)
  | none =>
    if operation = "sum" then sumOp matrix
    else if operation = "multiply" then multiplyOp matrix
    else if operation = "echo" then echoOp matrix
    else if operation = "invert" then invert matrix
    else if operation = "flatten" then flattenOp matrix
    else some (.error (.wrapf ("unsupported operation: " ++ operation) .invalidInput))

/-- What the repository's collaborator (the file system) can report for a
path: `os.Open` failure, `file.Stat` failure, or a file with a size and a
CSV parse outcome. -/
inductive FsFile where
  | openErr : String → FsFile
  | statErr : String → FsFile
  | file : Nat → Except String (List (List String)) → FsFile

/-- repository: 1 KB size ceiling. -/
def maxFileSizeBytes : Nat := 1024

/-- repository `GetFileContent`: context check, open, stat, size ceiling,
CSV parse — each failure wrapped with its sentinel classification. -/
def getFileContent (ctx : Ctx) (fs : String → FsFile) (filePath : String) :
    Except GoError (Option MatrixFileContent) :=
  match ctxErr ctx with
  | some e => .error e
  | none =>
    match fs filePath with
    | .openErr m => .error (.wrapf ("failed to open file: " ++ m) .notFound)
    | .statErr m => .error (.wrapf ("failed to get file info: " ++ m) .notFound)
    | .file size parse =>
      if size > maxFileSizeBytes then
        .error (.wrapf "file too large" .payloadTooLarge)
      else
        match parse with
        | .error m => .error (.wrapf ("failed to read CSV file: " ++ m) .unprocessableEntity)
        | .ok records => .ok (some ⟨records⟩)

/-- domain `ProcessMatrix`, parameterised by the content-provider
collaborator: context check, empty-operation check, path validation,
operation validation, content retrieval, matrix validation, operation
execution, short-circuiting on the first failure. -/
def processMatrix (ctx : Ctx) (provider : String → Except GoError (Option MatrixFileContent))
    (operation filePath : String) : Option (Except GoError String) :=
  match ctxErr ctx with
  | some e => some (.error e)
  | none =>
    if operation = "" then
      some (.error (.wrapf "operation parameter is required" .invalidInput))
    else
      match validateFilePath ctx filePath with
      | some e => some (.error e)
      | none =>
        match isValidOperation ctx operation with
        | some e => some (.error e)
        | none =>
          match provider filePath with
          | .error e => some (.error e)
          | .ok rawData =>
            match validate ctx rawData with
            | .error e => some (.error e)
            | .ok validatedMatrix => runOperation ctx (some validatedMatrix) operation

/-- Wrapping a base error in any number of message-adding
`fmt.Errorf("%w: ...")` layers. -/
def wrapLayers (msgs : List String) (e : GoError) : GoError :=
  msgs.foldr (fun m acc => .wrapf m acc) e

lemma errorsIs_wrapf_eq (m : String) (c t : GoError) (h : GoError.wrapf m c ≠ t) :
    errorsIs (.wrapf m c) t = errorsIs c t := by
  simp [errorsIs, h]

lemma errorsIs_wrapLayers (msgs : List String) (e t : GoError)
    (ht : ∀ m c, t ≠ GoError.wrapf m c) :
    errorsIs (wrapLayers msgs e) t = errorsIs e t := by
  induction msgs with
  | nil => rfl
  | cons m ms ih =>
    have hw : wrapLayers (m :: ms) e = .wrapf m (wrapLayers ms e) := rfl
    rw [hw, errorsIs_wrapf_eq _ _ _ (fun h => ht m (wrapLayers ms e) h.symm), ih]

lemma listContainsSeq_iff (needle hay : List Char) :
    listContainsSeq needle hay = true ↔ needle <:+: hay := by
  induction hay with
  | nil => simp [listContainsSeq, List.isPrefixOf_iff_prefix, List.infix_nil, List.prefix_nil]
  | cons c t ih => simp [listContainsSeq, List.isPrefixOf_iff_prefix, List.infix_cons_iff, ih]

/-- C9: error classification survives arbitrary wrapping — an error built
by wrapping a sentinel in any number of message layers is still
recognized by `errors.Is`, and `GetHTTPStatusCode` maps it to the fixed
code of its kind (InvalidInput→400, NotFound→404, PayloadTooLarge→413,
UnprocessableEntity→422); an error whose chain matches no sentinel maps
to 500. -/
theorem getHTTPStatusCode_wrap_stable (msgs : List String) :
    errorsIs (wrapLayers msgs .invalidInput) .invalidInput = true ∧
    errorsIs (wrapLayers msgs .notFound) .notFound = true ∧
    errorsIs (wrapLayers msgs .payloadTooLarge) .payloadTooLarge = true ∧
    errorsIs (wrapLayers msgs .unprocessableEntity) .unprocessableEntity = true ∧
    getHTTPStatusCode (some (wrapLayers msgs .invalidInput)) = 400 ∧
    getHTTPStatusCode (some (wrapLayers msgs .notFound)) = 404 ∧
    getHTTPStatusCode (some (wrapLayers msgs .payloadTooLarge)) = 413 ∧
    getHTTPStatusCode (some (wrapLayers msgs .unprocessableEntity)) = 422 ∧
    (∀ e : GoError,
      errorsIs e .invalidInput = false → errorsIs e .notFound = false →
      errorsIs e .payloadTooLarge = false → errorsIs e .unprocessableEntity = false →
      getHTTPStatusCode (some e) = 500) := by
  have h400 : ∀ e, errorsIs (wrapLayers msgs e) .invalidInput = errorsIs e .invalidInput :=
    fun e => errorsIs_wrapLayers msgs e _ (fun m c h => by cases h)
  have h404 : ∀ e, errorsIs (wrapLayers msgs e) .notFound = errorsIs e .notFound :=
    fun e => errorsIs_wrapLayers msgs e _ (fun m c h => by cases h)
  have h413 : ∀ e, errorsIs (wrapLayers msgs e) .payloadTooLarge = errorsIs e .payloadTooLarge :=
    fun e => errorsIs_wrapLayers msgs e _ (fun m c h => by cases h)
  have h422 : ∀ e,
      errorsIs (wrapLayers msgs e) .unprocessableEntity = errorsIs e .unprocessableEntity :=
    fun e => errorsIs_wrapLayers msgs e _ (fun m c h => by cases h)
  refine ⟨?_, ?_, ?_, ?_, ?_, ?_, ?_, ?_, ?_⟩
  · rw [h400]; rfl
  · rw [h404]; rfl
  · rw [h413]; rfl
  · rw [h422]; rfl
  · simp only [getHTTPStatusCode, h400, h404, h413, h422]; rfl
  · simp only [getHTTPStatusCode, h400, h404, h413, h422]; rfl
  · simp only [getHTTPStatusCode, h400, h404, h413, h422]; rfl
  · simp only [getHTTPStatusCode, h400, h404, h413, h422]; rfl
  · intro e h1 h2 h3 h4
    simp only [getHTTPStatusCode, h1, h2, h3, h4]
    rfl

/-- Witness for C9 at two concrete wrap layers and a concrete
unclassified error. -/
theorem getHTTPStatusCode_wrap_stable_witness :
    getHTTPStatusCode (some (wrapLayers ["outer context", "inner context"] .invalidInput)) = 400 ∧
    getHTTPStatusCode (some (wrapLayers ["outer context", "inner context"] .unprocessableEntity)) = 422 ∧
    getHTTPStatusCode (some (GoError.errorNew "boom")) = 500 :=
  ⟨(getHTTPStatusCode_wrap_stable ["outer context", "inner context"]).2.2.2.2.1,
   (getHTTPStatusCode_wrap_stable ["outer context", "inner context"]).2.2.2.2.2.2.2.1,
   (getHTTPStatusCode_wrap_stable []).2.2.2.2.2.2.2.2 (GoError.errorNew "boom")
     (by decide) (by decide) (by decide) (by decide)⟩

/-- C8: if the context is already cancelled (or past its deadline) when a
stage is entered, every stage — ProcessMatrix, ValidateFilePath,
Validate, IsValidOperation, RunOperation, GetFileContent — returns the
context's own error unchanged, and neither the content provider nor the
file system is consulted (the result is independent of them). -/
theorem cancelled_ctx_short_circuits (ctx : Ctx) (e : GoError) (hctx : ctxErr ctx = some e) :
    (∀ p op fp, processMatrix ctx p op fp = some (.error e)) ∧
    (∀ p q op fp, processMatrix ctx p op fp = processMatrix ctx q op fp) ∧
    (∀ fp, validateFilePath ctx fp = some e) ∧
    (∀ raw, validate ctx raw = .error e) ∧
    (∀ op, isValidOperation ctx op = some e) ∧
    (∀ m op, runOperation ctx m op = some (.error e)) ∧
    (∀ fs fs2 fp, getFileContent ctx fs fp = .error e ∧
      getFileContent ctx fs fp = getFileContent ctx fs2 fp) := by
  refine ⟨?_, ?_, ?_, ?_, ?_, ?_, ?_⟩
  · intro p op fp; simp only [processMatrix, hctx]
  · intro p q op fp; simp only [processMatrix, hctx]
  · intro fp; simp only [validateFilePath, hctx]
  · intro raw; simp only [validate, hctx]
  · intro op; simp only [isValidOperation, hctx]
  · intro m op; simp only [runOperation, hctx]
  · intro fs fs2 fp; exact ⟨by simp only [getFileContent, hctx], by simp only [getFileContent, hctx]⟩

/-- Witness for C8 with a concrete cancelled context. -/
theorem cancelled_ctx_short_circuits_witness :
    processMatrix .canceled (fun _ => .ok (some ⟨[["1"]]⟩)) "sum" "testdata/m.csv"
      = some (.error .canceled) ∧
    validateFilePath .canceled "testdata/m.csv" = some .canceled ∧
    runOperation .canceled (some ⟨[[1]]⟩) "sum" = some (.error .canceled) :=
  ⟨(cancelled_ctx_short_circuits .canceled .canceled rfl).1 _ _ _,
   (cancelled_ctx_short_circuits .canceled .canceled rfl).2.2.1 _,
   (cancelled_ctx_short_circuits .canceled .canceled rfl).2.2.2.2.2.1 _ _⟩

/-- C6: with a live context, `ValidateFilePath` accepts a path exactly
when it is non-empty, contains no ".." anywhere, starts with "testdata/"
and ends with ".csv"; every rejection is classified InvalidInput.  The
decision never consults the file system, so it is independent of whether
the file exists. -/
theorem validateFilePath_policy (ctx : Ctx) (filePath : String) (hctx : ctxErr ctx = none) :
    (validateFilePath ctx filePath = none ↔
      (filePath ≠ "" ∧ ¬ ([ '.', '.' ] <:+: filePath.data)
        ∧ "testdata/".data <+: filePath.data ∧ ".csv".data <:+ filePath.data))
    ∧ (∀ e, validateFilePath ctx filePath = some e → errorsIs e .invalidInput = true) := by
  simp only [validateFilePath, hctx]
  split_ifs with h1 h2 h3 h4
  · refine ⟨by simp [h1], ?_⟩
    intro e he
    cases he
    rfl
  · refine ⟨by simp [← listContainsSeq_iff, h2], ?_⟩
    intro e he
    cases he
    rfl
  · refine ⟨?_, ?_⟩
    · simp only [Bool.not_eq_true'] at h3
      simp [← List.isPrefixOf_iff_prefix, h3]
    · intro e he
      cases he
      rfl
  · refine ⟨?_, ?_⟩
    · simp only [Bool.not_eq_true'] at h4
      simp [← List.isSuffixOf_iff_suffix, h4]
    · intro e he
      cases he
      rfl
  · have h3' : List.isPrefixOf "testdata/".data filePath.data = true := by
      cases hb : List.isPrefixOf "testdata/".data filePath.data with
      | true => rfl
      | false => exact absurd (by simp [hb]) h3
    have h4' : List.isSuffixOf ".csv".data filePath.data = true := by
      cases hb : List.isSuffixOf ".csv".data filePath.data with
      | true => rfl
      | false => exact absurd (by simp [hb]) h4
    refine ⟨?_, ?_⟩
    · simp only [← listContainsSeq_iff, ← List.isPrefixOf_iff_prefix,
        ← List.isSuffixOf_iff_suffix]
      simp [h1, h2, h3', h4']
    · intro e he
      cases he

/-- Witness for C6 at a concrete accepted path. -/
theorem validateFilePath_policy_witness :
    validateFilePath .background "testdata/x.csv" = none :=
  (validateFilePath_policy .background "testdata/x.csv" rfl).1.mpr
    (by refine ⟨by decide, ?_, ?_, ?_⟩
        · rw [← listContainsSeq_iff]; decide
        · rw [← List.isPrefixOf_iff_prefix]; decide
        · rw [← List.isSuffixOf_iff_suffix]; decide)

example : validateFilePath .background "testdata/x.csv" = none := by decide
example : validateFilePath .background "../secret.csv" ≠ none := by decide
example : goSscanfInt "12abc" = some 12 := by decide
example : goSscanfInt "1.5" = some 1 := by decide
example : goSscanfInt "" = none := by decide
example : goSscanfInt "  " = none := by decide
example : goSscanfInt "-7" = some (-7) := by decide
example : cleanIntValue "12abc" = none := by decide
example : cleanIntValue "-7" = some (-7) := by decide
example : validate .background (some ⟨[["1", "2"], ["3", "4"]]⟩) = .ok ⟨[[1, 2], [3, 4]]⟩ := by decide
example : invert (some ⟨[[1, 2, 3], [4, 5, 6]]⟩) = some (.ok "1,4\n2,5\n3,6") := by decide
example : invert (some ⟨[[1, 2], [3]]⟩) = none := by decide
example : sumOp (some ⟨[[1, 2, 3], [4, 5, 6]]⟩) = some (.ok "21") := by decide
example : multiplyOp (some ⟨[[2, 3], [4, 5]]⟩) = some (.ok "120") := by decide
example : flattenOp (some ⟨[[1, 2], [3, 4]]⟩) = some (.ok "1,2,3,4") := by decide
example : echoOp (some ⟨[[1, 2], [3, 4]]⟩) = some (.ok "1,2\n3,4") := by decide
example : getHTTPStatusCode (some (.wrapf "x" (.wrapf "y" .notFound))) = 404 := by decide
example : validate .background (some ⟨[["12abc"]]⟩) = .ok ⟨[[12]]⟩ := by decide

/-- Extract the error of an `Except` result (used only to phrase closed
witness statements without an existential). -/
def errOf : Except GoError MatrixEntity → GoError
  | .error e => e
  | .ok _ => .errorNew "no error"

/-- C7: with a live context, `ProcessMatrix` runs cancellation check,
empty-operation check, path validation, operation validation, content
retrieval, matrix validation and operation execution in that order,
short-circuiting on the first failure; an empty operation yields
InvalidInput and the content provider is never invoked (the outcome is
the same for any two providers). -/
theorem processMatrix_stage_order (ctx : Ctx)
    (p q : String → Except GoError (Option MatrixFileContent))
    (operation filePath : String) (hctx : ctxErr ctx = none) :
    (operation = "" →
      processMatrix ctx p operation filePath
        = some (.error (.wrapf "operation parameter is required" .invalidInput)) ∧
      processMatrix ctx p operation filePath = processMatrix ctx q operation filePath ∧
      ∀ e, processMatrix ctx p operation filePath = some (.error e)
        → errorsIs e .invalidInput = true) ∧
    (∀ e, operation ≠ "" → validateFilePath ctx filePath = some e →
      processMatrix ctx p operation filePath = some (.error e) ∧
      processMatrix ctx p operation filePath = processMatrix ctx q operation filePath) ∧
    (∀ e, operation ≠ "" → validateFilePath ctx filePath = none →
      isValidOperation ctx operation = some e →
      processMatrix ctx p operation filePath = some (.error e) ∧
      processMatrix ctx p operation filePath = processMatrix ctx q operation filePath) ∧
    (∀ e, operation ≠ "" → validateFilePath ctx filePath = none →
      isValidOperation ctx operation = none → p filePath = .error e →
      processMatrix ctx p operation filePath = some (.error e)) ∧
    (∀ raw e, operation ≠ "" → validateFilePath ctx filePath = none →
      isValidOperation ctx operation = none → p filePath = .ok raw →
      validate ctx raw = .error e →
      processMatrix ctx p operation filePath = some (.error e)) ∧
    (∀ raw m, operation ≠ "" → validateFilePath ctx filePath = none →
      isValidOperation ctx operation = none → p filePath = .ok raw →
      validate ctx raw = .ok m →
      processMatrix ctx p operation filePath = runOperation ctx (some m) operation) := by
  refine ⟨?_, ?_, ?_, ?_, ?_, ?_⟩
  · intro hop
    subst hop
    refine ⟨by simp [processMatrix, hctx], by simp [processMatrix, hctx], ?_⟩
    intro e he
    simp only [processMatrix, hctx, if_pos rfl] at he
    cases he with
    | refl => rfl
  · intro e hop hvf
    simp only [processMatrix, hctx, if_neg hop, hvf]
    exact ⟨trivial, trivial⟩
  · intro e hop hvf hop2
    simp only [processMatrix, hctx, if_neg hop, hvf, hop2]
    exact ⟨trivial, trivial⟩
  · intro e hop hvf hop2 hp
    simp only [processMatrix, hctx, if_neg hop, hvf, hop2, hp]
  · intro raw e hop hvf hop2 hp hv
    simp only [processMatrix, hctx, if_neg hop, hvf, hop2, hp, hv]
  · intro raw m hop hvf hop2 hp hv
    simp only [processMatrix, hctx, if_neg hop, hvf, hop2, hp, hv]

/-- Witness for C7: the empty operation short-circuits before the
provider, for two providers that disagree everywhere. -/
theorem processMatrix_stage_order_witness :
    processMatrix .background (fun _ => .ok (some ⟨[["1"]]⟩)) "" "testdata/m.csv"
      = some (.error (.wrapf "operation parameter is required" .invalidInput)) ∧
    processMatrix .background (fun _ => .ok (some ⟨[["1"]]⟩)) "" "testdata/m.csv"
      = processMatrix .background (fun _ => .error (.errorNew "provider blew up")) ""
          "testdata/m.csv" :=
  ⟨((processMatrix_stage_order .background (fun _ => .ok (some ⟨[["1"]]⟩))
      (fun _ => .error (.errorNew "provider blew up")) "" "testdata/m.csv" rfl).1 rfl).1,
   ((processMatrix_stage_order .background (fun _ => .ok (some ⟨[["1"]]⟩))
      (fun _ => .error (.errorNew "provider blew up")) "" "testdata/m.csv" rfl).1 rfl).2.1⟩

lemma checkRowLengths_some_UE :
    ∀ (l : List (List String)) (cols i : Nat) (e : GoError),
      checkRowLengths l cols i = some e → errorsIs e .unprocessableEntity = true := by
  intro l
  induction l with
  | nil => intro cols i e h; cases h
  | cons row rest ih =>
    intro cols i e h
    simp only [checkRowLengths] at h
    split_ifs at h with hb
    · cases h with
      | refl => rfl
    · exact ih cols (i + 1) e h

lemma checkRowLengths_none_iff :
    ∀ (l : List (List String)) (cols i : Nat),
      checkRowLengths l cols i = none ↔ ∀ row ∈ l, row.length = cols := by
  intro l
  induction l with
  | nil => intro cols i; simp [checkRowLengths]
  | cons row rest ih =>
    intro cols i
    simp only [checkRowLengths]
    split_ifs with hb
    · simp [hb]
    · simp only [not_not] at hb
      simp [hb, ih]

/-- C2: with a live context, `Validate` rejects with an
UnprocessableEntity-classified error (and returns no matrix) whenever the
raw content is nil or empty, has more than 10 rows, has a first row of
more than 10 fields, or is ragged. -/
theorem validate_rejects_bad_shape (ctx : Ctx) (raw : Option MatrixFileContent)
    (hctx : ctxErr ctx = none)
    (hbad : raw = none ∨ ∃ rd, raw = some rd ∧
      (rd.Content = [] ∨ rd.Content.length > 10 ∨ (rd.Content.headD []).length > 10 ∨
        ∃ row ∈ rd.Content, row.length ≠ (rd.Content.headD []).length)) :
    ∃ e, validate ctx raw = .error e ∧ errorsIs e .unprocessableEntity = true := by
  rcases hbad with h | ⟨rd, hrd, hcase⟩
  · subst h
    exact ⟨.wrapf "empty matrix data" .unprocessableEntity, by simp [validate, hctx], rfl⟩
  · subst hrd
    simp only [validate, hctx]
    split_ifs with h0 h1 h2
    · exact ⟨_, rfl, rfl⟩
    · exact ⟨_, rfl, rfl⟩
    · exact ⟨_, rfl, rfl⟩
    · have hragged : ∃ row ∈ rd.Content, row.length ≠ (rd.Content.headD []).length := by
        rcases hcase with hc | hc | hc | hc
        · exact absurd (by simp [hc]) h0
        · exact absurd hc h1
        · exact absurd hc h2
        · exact hc
      cases hck : checkRowLengths rd.Content (rd.Content.headD []).length 0 with
      | none =>
        obtain ⟨row, hmem, hne⟩ := hragged
        exact absurd ((checkRowLengths_none_iff _ _ _).mp hck row hmem) hne
      | some e =>
        exact ⟨e, rfl, checkRowLengths_some_UE _ _ _ _ hck⟩

/-- Witness for C2 at a concrete ragged matrix. -/
theorem validate_rejects_bad_shape_witness :
    errorsIs (errOf (validate .background (some ⟨[["1", "2"], ["3"]]⟩))) .unprocessableEntity
      = true := by
  obtain ⟨e, hv, hIs⟩ := validate_rejects_bad_shape .background (some ⟨[["1", "2"], ["3"]]⟩) rfl
    (Or.inr ⟨_, rfl, Or.inr (Or.inr (Or.inr ⟨["3"], by decide, by decide⟩))⟩)
  rw [hv]
  exact hIs

/-- C1 (code bug): `Validate` parses cells with `fmt.Sscanf(val, "%d", &num)`,
which stops at the first non-digit and ignores the rest of the field, so a
partial parse such as "12abc" or "1.5" is silently truncated to its digit
prefix and accepted — contradicting both the spec's "no silent truncation"
requirement and the code's own documentation that it "ensures ... all
values are valid integers".  Empty and whitespace-only fields are rejected
as the spec says; the clean-integer reading (`cleanIntValue`) refuses the
partial parses that the code accepts. -/
theorem validate_truncates_partial_parse :
    validate .background (some ⟨[["12abc"]]⟩) = .ok ⟨[[12]]⟩ ∧
    validate .background (some ⟨[["1.5"]]⟩) = .ok ⟨[[1]]⟩ ∧
    cleanIntValue "12abc" = none ∧
    cleanIntValue "1.5" = none ∧
    validate .background (some ⟨[[""]]⟩)
      = .error (.wrapf "invalid integer value at row 0, column 0" .unprocessableEntity) ∧
    validate .background (some ⟨[["  "]]⟩)
      = .error (.wrapf "invalid integer value at row 0, column 0" .unprocessableEntity) := by
  decide

lemma foldl_add_eq (l : List Int) (a : Int) : l.foldl (fun x y => x + y) a = a + l.sum := by
  induction l generalizing a with
  | nil => simp
  | cons b t ih => simp only [List.foldl_cons, ih, List.sum_cons]; ring

lemma foldl_mul_eq (l : List Int) (a : Int) : l.foldl (fun x y => x * y) a = a * l.prod := by
  induction l generalizing a with
  | nil => simp
  | cons b t ih => simp only [List.foldl_cons, ih, List.prod_cons]; ring

lemma foldl_rows_add (data : List (List Int)) (a : Int) :
    data.foldl (fun acc row => row.foldl (fun x y => x + y) acc) a = a + data.flatten.sum := by
  induction data generalizing a with
  | nil => simp
  | cons r t ih =>
    rw [List.foldl_cons, foldl_add_eq, ih, List.flatten_cons, List.sum_append]
    ring

lemma foldl_rows_mul (data : List (List Int)) (a : Int) :
    data.foldl (fun acc row => row.foldl (fun x y => x * y) acc) a = a * data.flatten.prod := by
  induction data generalizing a with
  | nil => simp
  | cons r t ih =>
    rw [List.foldl_cons, foldl_mul_eq, ih, List.flatten_cons, List.prod_append]
    ring

/-- C5: for a non-empty matrix, `sum` renders the exact integer sum of
all elements and `multiply` the exact integer product — the accumulator
is a `big.Int`, so there is no fixed-width overflow for any element
values — and a zero element anywhere makes `multiply` return "0". -/
theorem sum_multiply_exact (data : List (List Int)) (hne : data ≠ []) :
    sumOp (some ⟨data⟩) = some (.ok (toString data.flatten.sum)) ∧
    multiplyOp (some ⟨data⟩) = some (.ok (toString data.flatten.prod)) ∧
    ((0 : Int) ∈ data.flatten → multiplyOp (some ⟨data⟩) = some (.ok "0")) := by
  have hlen : ¬ data.length = 0 := by simpa [List.length_eq_zero] using hne
  refine ⟨?_, ?_, ?_⟩
  · simp only [sumOp, if_neg hlen, foldl_rows_add, zero_add]
  · simp only [multiplyOp, if_neg hlen, foldl_rows_mul, one_mul]
  · intro h0
    simp only [multiplyOp, if_neg hlen, foldl_rows_mul, one_mul, List.prod_eq_zero h0]
    rfl

/-- Witness for C5 at the spec's own end-to-end examples plus a zero
element. -/
theorem sum_multiply_exact_witness :
    sumOp (some ⟨[[1, 2, 3], [4, 5, 6]]⟩) = some (.ok "21") ∧
    multiplyOp (some ⟨[[2, 3], [4, 5]]⟩) = some (.ok "120") ∧
    multiplyOp (some ⟨[[3, 0], [7, 9]]⟩) = some (.ok "0") := by
  refine ⟨?_, ?_, ?_⟩
  · rw [(sum_multiply_exact [[1, 2, 3], [4, 5, 6]] (by decide)).1]; decide
  · rw [(sum_multiply_exact [[2, 3], [4, 5]] (by decide)).2.1]; decide
  · exact (sum_multiply_exact [[3, 0], [7, 9]] (by decide)).2.2 (by decide)

lemma optMapM_eq_map {α β : Type} (f : α → Option β) (g : α → β) :
    ∀ l : List α, (∀ a ∈ l, f a = some (g a)) → optMapM f l = some (l.map g) := by
  intro l
  induction l with
  | nil => intro; rfl
  | cons a t ih =>
    intro h
    simp only [optMapM, h a (List.mem_cons_self a t),
      ih (fun b hb => h b (List.mem_cons_of_mem a hb)), List.map_cons]

lemma get?_eq_some_getD {β : Type} (l : List β) (n : Nat) (d : β) (h : n < l.length) :
    l.get? n = some (l.getD n d) := by
  rw [List.get?_eq_getElem?, List.getElem?_eq_getElem h, List.getD_eq_getElem?_getD,
    List.getElem?_eq_getElem h]
  rfl

lemma getD_mem_of_lt {β : Type} (l : List β) (n : Nat) (d : β) (h : n < l.length) :
    l.getD n d ∈ l := by
  rw [List.getD_eq_getElem?_getD, List.getElem?_eq_getElem h]
  exact List.getElem_mem h

lemma getD_map_range {β : Type} (n : Nat) (f : Nat → β) (c : Nat) (d : β) (h : c < n) :
    ((List.range n).map f).getD c d = f c := by
  rw [List.getD_eq_getElem?_getD, List.getElem?_map, List.getElem?_range h]
  rfl

lemma headD_mem {β : Type} (l : List β) (d : β) (h : l ≠ []) : l.headD d ∈ l := by
  cases l with
  | nil => exact absurd rfl h
  | cons a t => exact List.mem_cons_self a t

/-- The mathematical transpose the spec describes for `invert`:
`output[c][r] = input[r][c]`, with `C` rows of `data.length` columns. -/
def specTranspose (data : List (List Int)) (C : Nat) : List (List Int) :=
  (List.range C).map (fun c => (List.range data.length).map (fun r => (data.getD r []).getD c 0))

lemma invert_eq_of_min_cols (data : List (List Int)) (hne : data ≠ [])
    (hmin : ∀ row ∈ data, (data.headD []).length ≤ row.length) :
    invert (some ⟨data⟩)
      = some (.ok (renderGrid (specTranspose data (data.headD []).length))) := by
  have hlen : ¬ data.length = 0 := by simpa [List.length_eq_zero] using hne
  have hg : optMapM (fun i => optMapM (fun j => (data.getD j []).get? i)
        (List.range data.length)) (List.range (data.headD []).length)
      = some (specTranspose data (data.headD []).length) := by
    apply optMapM_eq_map
    intro i hi
    apply optMapM_eq_map
    intro j hj
    have hj' : j < data.length := List.mem_range.mp hj
    have hi' : i < (data.headD []).length := List.mem_range.mp hi
    exact get?_eq_some_getD _ _ _
      (lt_of_lt_of_le hi' (hmin _ (getD_mem_of_lt data j [] hj')))
  simp only [invert, if_neg hlen, hg]

/-- C10: `invert` guards only against a nil/zero-row matrix; it is
panic-free whenever every row is at least as long as the first row, but a
non-empty ragged matrix whose later row is shorter than the first makes
the `Data[j][i]` read go out of range (outer `none` = panic), both
directly and through `RunOperation`.  Echo, flatten, sum and multiply
iterate each row at its own length and never panic on any input. -/
theorem invert_ragged_panics :
    (∀ data : List (List Int), data ≠ [] →
      (∀ row ∈ data, (data.headD []).length ≤ row.length) →
      ∃ s, invert (some ⟨data⟩) = some (.ok s)) ∧
    invert (some ⟨[[1, 2], [3]]⟩) = none ∧
    runOperation .background (some ⟨[[1, 2], [3]]⟩) "invert" = none ∧
    (∀ m, (echoOp m).isSome ∧ (flattenOp m).isSome ∧ (sumOp m).isSome ∧ (multiplyOp m).isSome)
    := by
  refine ⟨?_, by decide, by decide, ?_⟩
  · intro data hne hmin
    exact ⟨_, invert_eq_of_min_cols data hne hmin⟩
  · intro m
    cases m with
    | none => exact ⟨rfl, rfl, rfl, rfl⟩
    | some mt =>
      by_cases h : mt.Data.length = 0 <;>
        simp [echoOp, flattenOp, sumOp, multiplyOp, h]

/-- `true` iff an operation result is a successful render (no panic, no
error); used to phrase closed witness statements. -/
def isOkResult : Option (Except GoError String) → Bool
  | some (.ok _) => true
  | _ => false

/-- Witness for C10: a rectangular matrix goes through `invert` without a
panic. -/
theorem invert_ragged_panics_witness :
    isOkResult (invert (some ⟨[[1, 2], [3, 4]]⟩)) = true := by
  obtain ⟨s, hs⟩ := invert_ragged_panics.1 [[1, 2], [3, 4]] (by decide) (by decide)
  rw [hs]
  rfl

/-- C4: on a non-empty rectangular R×C matrix (square or not), `invert`
returns the rendering of the transpose: C rows of R columns whose cell
(c, r) is the input's cell (r, c), rows joined by a line break and cells
by commas with no trailing break (`renderGrid`). -/
theorem invert_transposes (data : List (List Int)) (C : Nat) (hne : data ≠ [])
    (hrect : ∀ row ∈ data, row.length = C) :
    invert (some ⟨data⟩) = some (.ok (renderGrid (specTranspose data C))) ∧
    (specTranspose data C).length = C ∧
    (∀ row ∈ specTranspose data C, row.length = data.length) ∧
    (∀ c r, c < C → r < data.length →
      ((specTranspose data C).getD c []).getD r 0 = (data.getD r []).getD c 0) := by
  have hC : (data.headD []).length = C := hrect _ (headD_mem data [] hne)
  refine ⟨?_, ?_, ?_, ?_⟩
  · have h := invert_eq_of_min_cols data hne (fun row hr => by rw [hC, hrect row hr])
    rwa [hC] at h
  · simp [specTranspose]
  · intro row hrow
    simp only [specTranspose, List.mem_map] at hrow
    obtain ⟨c, hc, hrow⟩ := hrow
    simp [← hrow]
  · intro c r hc hr
    simp only [specTranspose]
    rw [getD_map_range _ _ _ _ hc, getD_map_range _ _ _ _ hr]

/-- Witness for C4 at the spec's 2×3 example. -/
theorem invert_transposes_witness :
    invert (some ⟨[[1, 2, 3], [4, 5, 6]]⟩) = some (.ok "1,4\n2,5\n3,6") := by
  rw [(invert_transposes [[1, 2, 3], [4, 5, 6]] 3 (by decide) (by decide)).1]
  decide

lemma goSkipSpace_nonspace (c : Char) (t : List Char) (h1 : ¬ c = '\n')
    (h2 : ¬ (c = ' ' ∨ c = '\t' ∨ c = '\x0b' ∨ c = '\x0c' ∨ c = '\r')) :
    goSkipSpace (c :: t) = some (c :: t) := by
  simp [goSkipSpace, h1, h2]

lemma isDigit_not_space (c : Char) (h : c.isDigit = true) :
    (¬ c = '\n') ∧ ¬ (c = ' ' ∨ c = '\t' ∨ c = '\x0b' ∨ c = '\x0c' ∨ c = '\r') := by
  constructor
  · intro hc; subst hc; exact absurd h (by decide)
  · rintro (hc | hc | hc | hc | hc) <;> (subst hc; exact absurd h (by decide))

/-- On a clean signed-digit field, the Go scanner returns exactly the
denoted value when it fits in int64 (and errors on overflow, so it never
returns a different value). -/
lemma goSscanfInt_of_clean (s : String) (v : Int) (hc : cleanIntValue s = some v) :
    goSscanfInt s = if -(2 ^ 63) ≤ v ∧ v < 2 ^ 63 then some v else none := by
  by_cases hcond : (splitSign s.data).2 ≠ [] ∧ (splitSign s.data).2.all (fun c => c.isDigit)
  · have hv : v = if (splitSign s.data).1 then -(digitsVal (splitSign s.data).2 : Int)
        else (digitsVal (splitSign s.data).2 : Int) := by
      simp only [cleanIntValue] at hc
      rw [if_pos hcond] at hc
      exact (Option.some.inj hc).symm
    cases hd : s.data with
    | nil =>
      rw [hd] at hcond
      simp [splitSign] at hcond
    | cons c t =>
      rw [hd] at hcond hv
      have hc_first : c = '-' ∨ c = '+' ∨ c.isDigit = true := by
        by_cases hm : c = '-'
        · exact Or.inl hm
        · by_cases hp : c = '+'
          · exact Or.inr (Or.inl hp)
          · refine Or.inr (Or.inr ?_)
            have hsplit : splitSign (c :: t) = (false, c :: t) := by simp [splitSign, hm, hp]
            have := hcond.2
            rw [hsplit] at this
            simpa using (List.all_eq_true.mp this) c (List.mem_cons_self c t)
      have hskip : goSkipSpace (c :: t) = some (c :: t) := by
        rcases hc_first with h | h | h
        · subst h; exact goSkipSpace_nonspace _ _ (by decide) (by decide)
        · subst h; exact goSkipSpace_nonspace _ _ (by decide) (by decide)
        · obtain ⟨h1, h2⟩ := isDigit_not_space c h
          exact goSkipSpace_nonspace _ _ h1 h2
      have hds : (splitSign (c :: t)).2.takeWhile (fun c => c.isDigit) = (splitSign (c :: t)).2 :=
        List.takeWhile_eq_self_iff.mpr (List.all_eq_true.mp hcond.2)
      simp only [goSscanfInt, hd, hskip, hds, if_neg hcond.1, hv]
  · simp only [cleanIntValue] at hc
    rw [if_neg hcond] at hc
    cases hc

/-- The scanner never disagrees with the clean reading of a clean field. -/
lemma goSscanfInt_clean_agree (s : String) (v w : Int) (hc : cleanIntValue s = some v)
    (hg : goSscanfInt s = some w) : w = v := by
  rw [goSscanfInt_of_clean s v hc] at hg
  split_ifs at hg
  exact (Option.some.inj hg).symm

lemma parseRow_ok :
    ∀ (row : List String) (i j : Nat) (ns : List Int), parseRow row i j = .ok ns →
      ns.length = row.length ∧
      ∀ b, b < row.length → goSscanfInt (row.getD b "") = some (ns.getD b 0) := by
  intro row
  induction row with
  | nil =>
    intro i j ns h
    injection h with h'
    subst h'
    exact ⟨rfl, fun b hb => absurd hb (by simp)⟩
  | cons v rest ih =>
    intro i j ns h
    simp only [parseRow] at h
    cases hv : goSscanfInt v with
    | none => rw [hv] at h; cases h
    | some n =>
      rw [hv] at h
      cases hr : parseRow rest i (j + 1) with
      | error e => rw [hr] at h; cases h
      | ok ns' =>
        rw [hr] at h
        injection h with h'
        subst h'
        obtain ⟨hlen, hb⟩ := ih i (j + 1) ns' hr
        refine ⟨by simp [hlen], ?_⟩
        intro b hb'
        cases b with
        | zero => simpa using hv
        | succ b' =>
          simp only [List.getD_cons_succ]
          exact hb b' (by simpa using hb')

lemma parseRows_ok :
    ∀ (l : List (List String)) (i : Nat) (d : List (List Int)), parseRows l i = .ok d →
      d.length = l.length ∧
      ∀ a, a < l.length →
        (d.getD a []).length = (l.getD a []).length ∧
        ∀ b, b < (l.getD a []).length →
          goSscanfInt ((l.getD a []).getD b "") = some ((d.getD a []).getD b 0) := by
  intro l
  induction l with
  | nil =>
    intro i d h
    injection h with h'
    subst h'
    exact ⟨rfl, fun a ha => absurd ha (by simp)⟩
  | cons row rest ih =>
    intro i d h
    simp only [parseRows] at h
    cases hrow : parseRow row i 0 with
    | error e => rw [hrow] at h; cases h
    | ok ns =>
      rw [hrow] at h
      cases hrest : parseRows rest (i + 1) with
      | error e => rw [hrest] at h; cases h
      | ok t =>
        rw [hrest] at h
        injection h with h'
        subst h'
        obtain ⟨hlen, hrec⟩ := ih (i + 1) t hrest
        obtain ⟨hrl, hrb⟩ := parseRow_ok row i 0 ns hrow
        refine ⟨by simp [hlen], ?_⟩
        intro a ha
        cases a with
        | zero => exact ⟨hrl, hrb⟩
        | succ a' =>
          simp only [List.getD_cons_succ]
          exact hrec a' (by simpa using ha)

/-- C3: whenever `Validate` succeeds on a live context, the returned
matrix has exactly the raw content's row count, every row has the raw
content's (uniform) column count, and every cell whose raw field is a
clean base-10 signed integer holds exactly the denoted value. -/
theorem validate_success_faithful (ctx : Ctx) (rd : MatrixFileContent) (m : MatrixEntity)
    (hctx : ctxErr ctx = none) (hok : validate ctx (some rd) = .ok m) :
    m.Data.length = rd.Content.length ∧
    (∀ a, a < rd.Content.length →
      (m.Data.getD a []).length = (rd.Content.getD a []).length ∧
      (rd.Content.getD a []).length = (rd.Content.headD []).length) ∧
    (∀ a b v, a < rd.Content.length → b < (rd.Content.getD a []).length →
      cleanIntValue ((rd.Content.getD a []).getD b "") = some v →
      (m.Data.getD a []).getD b 0 = v) := by
  simp only [validate, hctx] at hok
  split_ifs at hok with h0 h1 h2
  cases hck : checkRowLengths rd.Content (rd.Content.headD []).length 0 with
  | some e =>
    rw [hck] at hok
    replace hok : Except.error e = Except.ok m := hok
    exact Except.noConfusion hok
  | none =>
    rw [hck] at hok
    cases hpr : parseRows rd.Content 0 with
    | error e =>
      rw [hpr] at hok
      replace hok : Except.error e = Except.ok m := hok
      exact Except.noConfusion hok
    | ok data =>
        rw [hpr] at hok
        replace hok : Except.ok (MatrixEntity.mk data) = Except.ok m := hok
        injection hok with h'
        subst h'
        obtain ⟨hlen, hcell⟩ := parseRows_ok rd.Content 0 data hpr
        have hcols := (checkRowLengths_none_iff rd.Content (rd.Content.headD []).length 0).mp hck
        refine ⟨hlen, ?_, ?_⟩
        · intro a ha
          exact ⟨(hcell a ha).1, hcols _ (getD_mem_of_lt rd.Content a [] ha)⟩
        · intro a b v ha hb hclean
          exact goSscanfInt_clean_agree _ v _ hclean ((hcell a ha).2 b hb)

/-- Witness for C3 at a concrete 2×2 matrix. -/
theorem validate_success_faithful_witness :
    validate .background (some ⟨[["1", "2"], ["3", "4"]]⟩) = .ok ⟨[[1, 2], [3, 4]]⟩ ∧
    (MatrixEntity.mk [[1, 2], [3, 4]]).Data.length
      = (MatrixFileContent.mk [["1", "2"], ["3", "4"]]).Content.length ∧
    ((MatrixEntity.mk [[1, 2], [3, 4]]).Data.getD 0 []).getD 1 0 = 2 := by
  have hok : validate .background (some ⟨[["1", "2"], ["3", "4"]]⟩) = .ok ⟨[[1, 2], [3, 4]]⟩ := by
    decide
  have h := validate_success_faithful .background ⟨[["1", "2"], ["3", "4"]]⟩ ⟨[[1, 2], [3, 4]]⟩
    rfl hok
  exact ⟨hok, h.1, h.2.2 0 1 2 (by decide) (by decide) (by decide)⟩
